import Mathlib

/-!
The echo HTML renderer (`htmlrenderer.go`).

A shallow embedding of the renderer of `venjiang/echo` and the proofs of the
properties its specification states.

* The functions of the repository (`getExt`, `prepareOptions`,
  `compileTemplates`, `HtmlRenderer`, `addLayoutFuncs`, `execute`, `Render`,
  the tables `helperFuncs` and `funcMap`) are translated one by one and keep
  their names.
* The Go standard library is not part of the repository.  What the renderer
  needs of it is modelled here: `strings.Split`/`strings.Join`,
  `filepath.ToSlash`, `filepath.Walk` (as the list of visits it makes), and
  the part of `html/template` that the renderer drives (`New`, `Delims`,
  `Funcs`, `Lookup`, `Parse`, `ExecuteTemplate`).  The template notation is
  kept abstract in a `Library` record (parser, value formatting, escapers), so
  the general theorems hold for every parser; `goLibrary` is a concrete
  instance for a fragment of the notation (text, the dot action, helper calls)
  on which the examples of the specification are evaluated.  The function
  table of a set holds the helpers that the repository attaches; the helpers
  that the engine predefines are the parser's own business.
* A helper of a `template.FuncMap` is a Go closure.  Closures are
  defunctionalised: `Func` lists the closures that the source creates, each
  with the variables it captures, and `callHelper` runs their bodies.
* Template execution may recurse for ever (a layout that yields itself), so
  `ExecuteTemplate` takes fuel and answers `none` when it runs out.
* A Go panic is the `error` side of `Except String`.
-/

namespace Echo

/-! ## Package `strings` and `path/filepath` -/

/-- The pieces of `s` between the occurrences of `sep`: `strings.Split` for a
one-character separator. -/
def splitChars (sep : Char) : List Char → List (List Char)
  | [] => [[]]
  | c :: cs =>
    if c = sep then [] :: splitChars sep cs
    else
      match splitChars sep cs with
      | [] => [[c]]
      | p :: ps => (c :: p) :: ps

/-- The pieces glued with `sep` between them: `strings.Join`. -/
def joinChars (sep : List Char) : List (List Char) → List Char
  | [] => []
  | [p] => p
  | p :: q :: ps => p ++ sep ++ joinChars sep (q :: ps)

/-- The source's `getExt`:
`if strings.Index(s, ".") == -1 { return "" }` and otherwise
`"." + strings.Join(strings.Split(s, ".")[1:], ".")`. -/
def getExt (s : String) : String :=
  if '.' ∉ s.data then ""
  else "." ++ String.mk (joinChars ['.'] ((splitChars '.' s.data).drop 1))

/-- The library's `filepath.ToSlash` on a host whose path separator is `sep`:
the path itself when the separator is the slash, and otherwise the path with
each separator replaced by a slash. -/
def ToSlash (sep : Char) (path : String) : String :=
  if sep = '/' then path
  else String.mk (path.data.map fun c => if c = sep then '/' else c)

/-! ## The data of `html/template` -/

/-- What a helper returns: a Go `string`, which the engine escapes when it
prints it, or a `template.HTML`, trusted markup that is printed as it is. -/
inductive Val where
  | str (s : String)
  | html (s : String)
  deriving DecidableEq, Repr

/-- An argument written in an action: a string or a boolean constant. -/
inductive Arg where
  | str (s : String)
  | bool (b : Bool)
  deriving DecidableEq, Repr

/-- A node of a parsed template body: literal text, the action that prints the
data (the dot), or the call of a helper. -/
inductive Node where
  | text (s : String)
  | dot
  | call (fn : String) (args : List Arg)
  deriving DecidableEq, Repr

/-- A parsed template body. -/
abbrev Body := List Node

/-- The errors of an execution. -/
inductive Error where
  /-- An error made by a helper with `fmt.Errorf`. -/
  | errorf (msg : String)
  /-- The name given to `ExecuteTemplate` is not in the set. -/
  | undefined (name : String)
  /-- The unit was created but never parsed. -/
  | incomplete (name : String)
  /-- A call that the engine cannot make: no helper of that name, or arguments
  that do not fit the helper. -/
  | badCall (fn : String)
  /-- The engine reports the error `cause` that helper `fn` returned while
  unit `unit` was executing. -/
  | calling (unit fn : String) (cause : Error)
  deriving DecidableEq, Repr

/-- The closures that occur in the function maps of the source, each with the
variables it captures, and the helpers a caller may supply. -/
inductive Func (δ : Type) where
  /-- Helper `"html"` of `HtmlRenderer`. -/
  | html
  /-- Helper `"js"` of `HtmlRenderer`. -/
  | js
  /-- Helper `"yield"` of `helperFuncs`. -/
  | yieldNoLayout
  /-- Helper `"current"` of `helperFuncs`. -/
  | currentNoLayout
  /-- Helper `"block"` of `helperFuncs`. -/
  | blockNoLayout
  /-- Closure `"yield"` of `addLayoutFuncs`, capturing `name` and `binding`. -/
  | yield (name : String) (binding : δ)
  /-- Closure `"current"` of `addLayoutFuncs`, capturing `name`. -/
  | current (name : String)
  /-- Closure `"block"` of `addLayoutFuncs`, capturing `binding`. -/
  | block (binding : δ)
  /-- A helper supplied by the caller in `Options.Funcs`. -/
  | custom (f : List Arg → Val × Option Error)

/-- A `template.FuncMap`: helper names with their functions. -/
abbrev FuncMap (δ : Type) := List (String × Func δ)

/-- Store `v` under key `k`: the assignment `m[k] = v` of a Go map. -/
def setEntry {α : Type} (k : String) (v : α) : List (String × α) → List (String × α)
  | [] => [(k, v)]
  | (k1, v1) :: rest =>
    if k1 = k then (k, v) :: rest else (k1, v1) :: setEntry k v rest

/-- The value stored under key `k`, if any. -/
def getEntry {α : Type} (k : String) : List (String × α) → Option α
  | [] => none
  | (k1, v1) :: rest => if k1 = k then some v1 else getEntry k rest

/-- A `*template.Template` of `html/template`: the name space that the root
and the units created from it share.  It holds the delimiters, the units by
name (a unit created by `New` has no body until it is parsed) and the one
function table common to all units. -/
structure Template (δ : Type) where
  name : String
  left : String
  right : String
  units : List (String × Option Body)
  funcs : List (String × Func δ)

/-- The parts of the template notation that the renderer treats as black
boxes. -/
structure Library (δ : Type) where
  /-- The parser: delimiters, the test whether a helper name is defined, the
  text; an error message or the parsed body. -/
  parse : String → String → (String → Bool) → String → Except String Body
  /-- The text that the dot action prints for a data value, before escaping. -/
  format : δ → String
  /-- The HTML escaper applied to untrusted text. -/
  escape : String → String
  /-- The library's `template.JSEscapeString`. -/
  jsEscape : String → String

/-- The library's `template.New(name)`: a fresh set whose only unit is the
root, not yet parsed, with the default delimiters and no helpers. -/
def template.New {δ : Type} (name : String) : Template δ :=
  { name := name, left := "", right := "", units := [(name, none)], funcs := [] }

/-- The library's `t.Delims(left, right)`. -/
def Template.Delims {δ : Type} (t : Template δ) (left right : String) : Template δ :=
  { t with left := left, right := right }

/-- The library's `t.New(name)`: a new unit of that name in the same set,
taking the place of a unit that already has the name. -/
def Template.New {δ : Type} (t : Template δ) (name : String) : Template δ :=
  { t with units := setEntry name none t.units }

/-- The library's `t.Funcs(funcMap)`: each entry of the map is stored in the
shared function table, over an entry of the same name. -/
def Template.Funcs {δ : Type} (t : Template δ) (funcMap : FuncMap δ) : Template δ :=
  { t with funcs := funcMap.foldl (fun tbl kv => setEntry kv.1 kv.2 tbl) t.funcs }

/-- The library's `t.Lookup(name) != nil`: the set has a unit of that name. -/
def Template.Lookup {δ : Type} (t : Template δ) (name : String) : Bool :=
  (getEntry name t.units).isSome

/-- The test handed to the parser: is `fn` in the function table. -/
def Template.defined {δ : Type} (t : Template δ) (fn : String) : Bool :=
  (getEntry fn t.funcs).isSome

/-- The library's `Parse(text)` on the unit `name` of the set: the text is
parsed with the delimiters and the helper names of the set, and becomes the
body of the unit; a parse error is returned. -/
def Template.Parse {δ : Type} (lib : Library δ) (t : Template δ) (name text : String) :
    Except String (Template δ) :=
  match lib.parse t.left t.right t.defined text with
  | .error e => .error e
  | .ok body => .ok { t with units := setEntry name (some body) t.units }

/-! ## The renderer's types -/

/-- The source's `Delims`. -/
structure Delims where
  Left : String := ""
  Right : String := ""

/-- The source's `Options`; the defaults are Go's zero values. -/
structure Options (δ : Type) where
  Directory : String := ""
  Layout : String := ""
  Extensions : List String := []
  Funcs : List (FuncMap δ) := []
  Delims : Delims := {}

/-- The source's `HtmlRender` (its field `rw` is never used). -/
structure HtmlRender (δ : Type) where
  templates : Template δ
  opt : Options δ

/-- The source's `helperFuncs`. -/
def helperFuncs {δ : Type} : FuncMap δ :=
  [("yield", Func.yieldNoLayout), ("current", Func.currentNoLayout),
   ("block", Func.blockNoLayout)]

/-- The map `funcMap` that `HtmlRenderer` builds. -/
def funcMap {δ : Type} : FuncMap δ :=
  [("html", Func.html), ("js", Func.js)]

/-- The source's `prepareOptions`. -/
def prepareOptions {δ : Type} (options : List (Options δ)) : Options δ :=
  let opt : Options δ :=
    match options with
    | [] => {}
    | o :: _ => o
  let opt := if opt.Directory.length = 0 then { opt with Directory := "templates" } else opt
  let opt := if opt.Extensions.length = 0 then { opt with Extensions := [".html"] } else opt
  opt

/-! ## Execution -/

/-- The result of writing to a sink: what the sink holds afterwards and the
error, if any.  `none` stands for an execution that ran out of fuel. -/
abbrev Outcome := Option (String × Option Error)

/-- The body of the closure `"yield"` of `addLayoutFuncs`:
`buf := new(bytes.Buffer); err := r.execute(buf, name, binding);
return template.HTML(buf.String()), err`. -/
def layoutYield {δ : Type} (execute : String → String → δ → Outcome)
    (name : String) (binding : δ) : Option (Val × Option Error) :=
  (execute "" name binding).map fun out => (Val.html out.1, out.2)

/-- The body of the closure `"current"` of `addLayoutFuncs`:
`return name, nil`. -/
def layoutCurrent (name : String) : Option (Val × Option Error) :=
  some (Val.str name, none)

/-- The body of the closure `"block"` of `addLayoutFuncs`: when
`r.templates.Lookup(blockName) != nil` the unit is executed into a new buffer
and the buffer is returned as `template.HTML` with the error; otherwise
`return "", nil`. -/
def layoutBlock {δ : Type} (execute : String → String → δ → Outcome)
    (lookup : String → Bool) (binding : δ) (blockName : String) :
    Option (Val × Option Error) :=
  if lookup blockName then
    (execute "" blockName binding).map fun out => (Val.html out.1, out.2)
  else some (Val.html "", none)

/-- The call of a helper with the arguments of an action.  `execute` and
`lookup` are `r.execute` and `r.templates.Lookup` of the renderer that the
layout closures capture.  Arguments that do not fit the Go signature of the
helper are refused by the engine. -/
def callHelper {δ : Type} (lib : Library δ) (execute : String → String → δ → Outcome)
    (lookup : String → Bool) (fn : String) : Func δ → List Arg → Option (Val × Option Error)
  | .html, [.str s] => some (Val.html s, none)
  | .js, [.str s] => some (Val.str (lib.jsEscape s), none)
  | .yieldNoLayout, [] =>
    some (Val.str "", some (Error.errorf "yield called with no layout defined"))
  | .currentNoLayout, [] => some (Val.str "", none)
  | .blockNoLayout, [.str _, .bool _] =>
    some (Val.str "", some (Error.errorf "block called with no layout defined"))
  | .yield name binding, [] => layoutYield execute name binding
  | .current name, [] => layoutCurrent name
  | .block binding, [.str blockName] => layoutBlock execute lookup binding blockName
  | .custom f, args => some (f args)
  | _, _ => some (Val.str "", some (Error.badCall fn))

/-- The engine runs the nodes of unit `unit` in order, writing to the sink
`wr`.  Text is written as it is, the data and `string` results go through the
escaper, `template.HTML` results are written as they are.  The first error
ends the execution; what was written before it stays written. -/
def execNodes {δ : Type} (lib : Library δ) (unit : String)
    (call : String → List Arg → Option (Val × Option Error)) (data : δ) :
    List Node → String → Outcome
  | [], wr => some (wr, none)
  | .text s :: rest, wr => execNodes lib unit call data rest (wr ++ s)
  | .dot :: rest, wr => execNodes lib unit call data rest (wr ++ lib.escape (lib.format data))
  | .call fn args :: rest, wr =>
    match call fn args with
    | none => none
    | some (_, some e) => some (wr, some (Error.calling unit fn e))
    | some (Val.str s, none) => execNodes lib unit call data rest (wr ++ lib.escape s)
    | some (Val.html s, none) => execNodes lib unit call data rest (wr ++ s)

/-- The library's `t.ExecuteTemplate(wr, name, data)`: the unit `name` of the
set is executed against `data`; a name that is not in the set is an error and
nothing is written.  A helper is looked up in the shared function table at the
moment of the call. -/
def ExecuteTemplate {δ : Type} (lib : Library δ) :
    Nat → Template δ → String → String → δ → Outcome
  | 0, _, _, _, _ => none
  | fuel + 1, t, wr, name, data =>
    match getEntry name t.units with
    | none => some (wr, some (Error.undefined name))
    | some none => some (wr, some (Error.incomplete name))
    | some (some body) =>
      execNodes lib name
        (fun fn args =>
          match getEntry fn t.funcs with
          | none => some (Val.str "", some (Error.badCall fn))
          | some f => callHelper lib (fun w n d => ExecuteTemplate lib fuel t w n d)
              t.Lookup fn f args)
        data body wr

/-- The call of helper `f` (registered as `fn`) by an execution of the set `t`
that has `fuel` left for nested executions. -/
def callFunc {δ : Type} (lib : Library δ) (fuel : Nat) (t : Template δ) (fn : String)
    (f : Func δ) (args : List Arg) : Option (Val × Option Error) :=
  callHelper lib (fun w n d => ExecuteTemplate lib fuel t w n d) t.Lookup fn f args

/-- The source's `HtmlRender.execute`. -/
def execute {δ : Type} (lib : Library δ) (fuel : Nat) (r : HtmlRender δ) (wr name : String)
    (binding : δ) : Outcome :=
  ExecuteTemplate lib fuel r.templates wr name binding

/-- The source's `HtmlRender.addLayoutFuncs`: the three closures are put into
the function table of the shared template set. -/
def addLayoutFuncs {δ : Type} (r : HtmlRender δ) (name : String) (binding : δ) :
    HtmlRender δ :=
  let funcs : FuncMap δ :=
    [("yield", Func.yield name binding), ("current", Func.current name),
     ("block", Func.block binding)]
  { r with templates := r.templates.Funcs funcs }

/-- The source's `HtmlRender.Render`.  The renderer is returned with the
result because `addLayoutFuncs` changes the template set it points to. -/
def Render {δ : Type} (lib : Library δ) (fuel : Nat) (r : HtmlRender δ) (wr name : String)
    (data : δ) : HtmlRender δ × Outcome :=
  if r.opt.Layout.length > 0 then
    let r1 := addLayoutFuncs r name data
    (r1, execute lib fuel r1 wr r.opt.Layout data)
  else
    (r, execute lib fuel r wr name data)

/-! ## Compilation -/

/-- One call that `filepath.Walk` makes to its function: the path, the result
of `filepath.Rel(dir, path)` for it, the error that `Walk` passes along, and
what `ioutil.ReadFile(path)` returns. -/
structure Visit where
  path : String
  rel : Except String String
  err : Option String := none
  read : Except String String

/-- The host: its path separator and, for a directory, the visits that
`filepath.Walk` makes there (the root first, then the entries). -/
structure Host where
  separator : Char
  walk : String → List Visit

/-- The library's `filepath.Walk`: the function is called visit after visit
until it returns an error, which `Walk` returns.  The state of the template
set is threaded through; a panic of the function ends everything. -/
def Walk {σ : Type} (fn : σ → Visit → Except String (σ × Option String)) :
    List Visit → σ → Except String (σ × Option String)
  | [], s => .ok (s, none)
  | v :: vs, s =>
    match fn s v with
    | .error p => .error p
    | .ok (s1, some e) => .ok (s1, some e)
    | .ok (s1, none) => Walk fn vs s1

/-- The helper maps that `compileTemplates` attaches to a unit before parsing
it: `for _, funcs := range options.Funcs { tmpl.Funcs(funcs) }` and then
`tmpl.Funcs(helperFuncs)`. -/
def attachFuncs {δ : Type} (options : Options δ) (tmpl : Template δ) : Template δ :=
  (options.Funcs.foldl (fun tm funcs => tm.Funcs funcs) tmpl).Funcs helperFuncs

/-- The body of the extension loop of `compileTemplates` for a file with
relative path `r`: the file is read (`panic(err)` when that fails), the unit
`filepath.ToSlash(r)` is created, the helper maps are attached and the content
is parsed under `template.Must`, which panics on a parse error. -/
def compileFile {δ : Type} (lib : Library δ) (sep : Char) (options : Options δ)
    (r : String) (read : Except String String) (t : Template δ) :
    Except String (Template δ) :=
  match read with
  | .error e => .error e
  | .ok buf =>
    let name := r
    let tmpl := t.New (ToSlash sep name)
    (attachFuncs options tmpl).Parse lib (ToSlash sep name) buf

/-- The loop `for _, extension := range options.Extensions` of
`compileTemplates`, for a visit with relative path `r` and extension `ext`:
at the first extension equal to `ext` the file is compiled and the loop is
left (`break`); with no such extension nothing happens. -/
def extensionLoop {δ : Type} (lib : Library δ) (sep : Char) (options : Options δ)
    (r ext : String) (read : Except String String) :
    List String → Template δ → Except String (Template δ)
  | [], t => .ok t
  | extension :: rest, t =>
    if ext = extension then compileFile lib sep options r read t
    else extensionLoop lib sep options r ext read rest t

/-- The function that `compileTemplates` hands to `filepath.Walk`.  The error
that `Walk` passes in is overwritten by the result of `filepath.Rel` before it
is looked at. -/
def walkFn {δ : Type} (lib : Library δ) (sep : Char) (options : Options δ)
    (t : Template δ) (v : Visit) : Except String (Template δ × Option String) :=
  match v.rel with
  | .error e => .ok (t, some e)
  | .ok r =>
    let ext := getExt r
    match extensionLoop lib sep options r ext v.read options.Extensions t with
    | .error p => .error p
    | .ok t1 => .ok (t1, none)

/-- The source's `compileTemplates`.  What `filepath.Walk` returns is
dropped. -/
def compileTemplates {δ : Type} (lib : Library δ) (host : Host) (options : Options δ) :
    Except String (Template δ) :=
  let dir := options.Directory
  let t : Template δ := template.New dir
  let t := t.Delims options.Delims.Left options.Delims.Right
  match t.Parse lib dir "root" with
  | .error p => .error p
  | .ok t =>
    match Walk (walkFn lib host.separator options) (host.walk dir) t with
    | .error p => .error p
    | .ok (t, _) => .ok t

/-- The source's `HtmlRenderer`. -/
def HtmlRenderer {δ : Type} (lib : Library δ) (host : Host) (options : List (Options δ)) :
    Except String (HtmlRender δ) :=
  let opt := prepareOptions options
  let opt := { opt with Funcs := [funcMap] }
  match compileTemplates lib host opt with
  | .error p => .error p
  | .ok t => .ok { templates := t, opt := opt }

/-! ## A concrete library for a fragment of the notation -/

/-- The replacement of one character by the HTML escaper of `html/template`
(the NUL character, the two quotes, the ampersand, the plus sign and the angle
brackets are replaced). -/
def htmlEscapeChar (c : Char) : List Char :=
  if c = Char.ofNat 0 then [Char.ofNat 0xFFFD]
  else if c = Char.ofNat 34 then "&#34;".data
  else if c = '&' then "&amp;".data
  else if c = Char.ofNat 39 then "&#39;".data
  else if c = '+' then "&#43;".data
  else if c = '<' then "&lt;".data
  else if c = '>' then "&gt;".data
  else [c]

/-- The HTML escaper on a whole text. -/
def htmlEscape (s : String) : String :=
  String.mk (s.data.foldr (fun c acc => htmlEscapeChar c ++ acc) [])

/-- The replacement of one character by `template.JSEscapeString`, for the
printable characters: backslash and quotes get a backslash, the angle
brackets, the ampersand and the equals sign are written as their code point;
other characters are kept. -/
def jsEscapeChar (c : Char) : List Char :=
  if c = Char.ofNat 92 then [Char.ofNat 92, Char.ofNat 92]
  else if c = Char.ofNat 39 then [Char.ofNat 92, Char.ofNat 39]
  else if c = Char.ofNat 34 then [Char.ofNat 92, Char.ofNat 34]
  else if c = '<' then Char.ofNat 92 :: "u003C".data
  else if c = '>' then Char.ofNat 92 :: "u003E".data
  else if c = '&' then Char.ofNat 92 :: "u0026".data
  else if c = '=' then Char.ofNat 92 :: "u003D".data
  else [c]

/-- The escaper `template.JSEscapeString` on a whole text. -/
def jsEscapeString (s : String) : String :=
  String.mk (s.data.foldr (fun c acc => jsEscapeChar c ++ acc) [])

/-- The rest of `s` after its start `p`, when `s` starts with `p`. -/
def dropStart : List Char → List Char → Option (List Char)
  | [], s => some s
  | _ :: _, [] => none
  | a :: p, b :: s => if a = b then dropStart p s else none

/-- The text before and after the first occurrence of `delim`. -/
def cutAt (delim : List Char) : List Char → Option (List Char × List Char)
  | [] => none
  | c :: cs =>
    match dropStart delim (c :: cs) with
    | some rest => some ([], rest)
    | none => (cutAt delim cs).map fun ab => (c :: ab.1, ab.2)

/-- The words of an action; a quoted string is one word, quotes included.
`cur` is the word being read, reversed, and `q` tells whether a quote is
open. -/
def scanWords : List Char → List Char → Bool → List (List Char)
  | [], cur, _ => if cur = [] then [] else [cur.reverse]
  | c :: cs, cur, true =>
    if c = Char.ofNat 34 then (c :: cur).reverse :: scanWords cs [] false
    else scanWords cs (c :: cur) true
  | c :: cs, cur, false =>
    if c = ' ' then
      if cur = [] then scanWords cs [] false else cur.reverse :: scanWords cs [] false
    else if c = Char.ofNat 34 then scanWords cs (c :: cur) true
    else scanWords cs (c :: cur) false

/-- An argument word: `true`, `false`, or a quoted string. -/
def parseArg (w : List Char) : Except String Arg :=
  if w = "true".data then .ok (Arg.bool true)
  else if w = "false".data then .ok (Arg.bool false)
  else
    match w with
    | q :: rest =>
      if q = Char.ofNat 34 ∧ rest.getLast? = some (Char.ofNat 34) then
        .ok (Arg.str (String.mk rest.dropLast))
      else .error ("unexpected " ++ String.mk w)
    | [] => .error "empty argument"

/-- All the argument words of an action. -/
def parseArgs : List (List Char) → Except String (List Arg)
  | [] => .ok []
  | w :: ws =>
    match parseArg w with
    | .error e => .error e
    | .ok a =>
      match parseArgs ws with
      | .error e => .error e
      | .ok as => .ok (a :: as)

/-- One action: the dot, or a helper name followed by constants.  A name that
is not defined is a parse error, as in the library. -/
def parseAction (defined : String → Bool) (action : List Char) : Except String Node :=
  match scanWords action [] false with
  | [] => .error "missing value for command"
  | w :: ws =>
    if w = ['.'] ∧ ws = [] then .ok Node.dot
    else if defined (String.mk w) then
      match parseArgs ws with
      | .error e => .error e
      | .ok args => .ok (Node.call (String.mk w) args)
    else .error ("function " ++ String.mk w ++ " not defined")

/-- The text node for a piece of literal text; no node for the empty piece. -/
def textNode (s : List Char) : List Node :=
  if s = [] then [] else [Node.text (String.mk s)]

/-- The parser of the fragment: literal text and actions between the
delimiters.  The fuel bounds the number of actions. -/
def parseNodes (left right : List Char) (defined : String → Bool) :
    Nat → List Char → Except String Body
  | 0, _ => .error "template too long"
  | n + 1, s =>
    match cutAt left s with
    | none => .ok (textNode s)
    | some (before, after) =>
      match cutAt right after with
      | none => .error "unclosed action"
      | some (action, rest) =>
        match parseAction defined action with
        | .error e => .error e
        | .ok node =>
          match parseNodes left right defined n rest with
          | .error e => .error e
          | .ok body => .ok (textNode before ++ node :: body)

/-- The parser of `goLibrary`; empty delimiters stand for the default pair of
double braces. -/
def goParse (left right : String) (defined : String → Bool) (text : String) :
    Except String Body :=
  parseNodes (if left = "" then "\x7b\x7b" else left).data
    (if right = "" then "\x7d\x7d" else right).data defined (text.length + 1) text.data

/-- A concrete library with string data: the dot prints the string. -/
def goLibrary : Library String :=
  { parse := goParse, format := fun s => s, escape := htmlEscape, jsEscape := jsEscapeString }

/-- The visit of a directory: reading it as a file fails. -/
def visitDir (dir r : String) : Visit :=
  { path := dir ++ "/" ++ r, rel := .ok r, read := .error ("read " ++ r ++ ": is a directory") }

/-- The visit of a regular file with the given content. -/
def visitFile (dir r content : String) : Visit :=
  { path := dir ++ "/" ++ r, rel := .ok r, read := .ok content }

/-- A host with a layout and two pages in the template directory. -/
def siteHost : Host :=
  { separator := '/',
    walk := fun dir =>
      [visitDir dir ".",
       visitFile dir "layout.html" "<body>\x7b\x7byield\x7d\x7d</body>",
       visitFile dir "page.html" "Hello \x7b\x7b.\x7d\x7d"] }

/-- A host whose layout has an optional block and no unit named
`sidebar`. -/
def sidebarHost : Host :=
  { separator := '/',
    walk := fun dir =>
      [visitDir dir ".",
       visitFile dir "layout.html"
         "<nav>\x7b\x7bblock \"sidebar\"\x7d\x7d</nav><main>\x7b\x7byield\x7d\x7d</main>",
       visitFile dir "page.html" "Hello \x7b\x7b.\x7d\x7d"] }

/-- A host whose layout prints the name of the page being rendered. -/
def viewHost : Host :=
  { separator := '/',
    walk := fun dir =>
      [visitDir dir ".",
       visitFile dir "layout.html" "[\x7b\x7bcurrent\x7d\x7d]",
       visitFile dir "view.html" "a view"] }

/-- The helper names that are defined when `compileTemplates` parses a file:
the names of the maps of `options.Funcs` and of `helperFuncs`. -/
def helperDefined {δ : Type} (options : Options δ) (fn : String) : Bool :=
  options.Funcs.any (fun m => m.any fun kv => kv.1 = fn)
    || (helperFuncs : FuncMap δ).any fun kv => kv.1 = fn

/-- What holds of the template set all through `compileTemplates`: the
delimiters are those of the options, and each helper in the function table has
one of the names of `helperDefined`. -/
def CompileInv {δ : Type} (options : Options δ) (t : Template δ) : Prop :=
  t.left = options.Delims.Left ∧ t.right = options.Delims.Right
    ∧ ∀ k, (getEntry k t.funcs).isSome = true → helperDefined options k = true

/-- The renderer that `HtmlRenderer` builds on a host with `goLibrary`; an
empty renderer when the construction panics. -/
def rendererOf (host : Host) (options : List (Options String)) : HtmlRender String :=
  match HtmlRenderer goLibrary host options with
  | .ok r => r
  | .error _ => { templates := template.New "", opt := {} }

/-- A host with one sound template and one whose action is never closed. -/
def brokenHost : Host :=
  { separator := '/',
    walk := fun dir =>
      [visitDir dir ".",
       visitFile dir "bad.html" "oops \x7b\x7byield",
       visitFile dir "good.html" "fine"] }

/-- A host whose path separator is the backslash, with one file two
directories down. -/
def backslashHost : Host :=
  { separator := Char.ofNat 92,
    walk := fun dir =>
      [{ path := dir, rel := .ok ".", read := .error "is a directory" },
       { path := dir ++ "\\a", rel := .ok "a", read := .error "is a directory" },
       { path := dir ++ "\\a\\b", rel := .ok "a\\b", read := .error "is a directory" },
       { path := dir ++ "\\a\\b\\c.html", rel := .ok "a\\b\\c.html", read := .ok "deep" }] }

/-- A host whose files end in `.html` but have an earlier dot in their
relative path, next to a plain `page.html`. -/
def dottedHost : Host :=
  { separator := '/',
    walk := fun dir =>
      [visitDir dir ".",
       visitFile dir "page.html" "plain",
       visitFile dir "page.min.html" "minified",
       visitDir dir "v1.0",
       visitFile dir "v1.0/index.html" "versioned"] }

/-- A host on which the template directory does not exist: `filepath.Walk`
calls its function once, for the root, with the error of `os.Lstat`. -/
def missingHost : Host :=
  { separator := '/',
    walk := fun dir =>
      [{ path := dir, rel := .ok ".",
         err := some ("lstat " ++ dir ++ ": no such file or directory"),
         read := .error ("open " ++ dir ++ ": no such file or directory") }] }

/-- A helper that a caller supplies in `Options.Funcs`. -/
def upper : Func String :=
  Func.custom fun args =>
    match args with
    | [Arg.str s] => (Val.str s.toUpper, none)
    | _ => (Val.str "", some (Error.badCall "upper"))

/-- A host whose only template calls the caller's helper `upper`. -/
def upperHost : Host :=
  { separator := '/',
    walk := fun dir =>
      [visitDir dir ".",
       visitFile dir "shout.html" "\x7b\x7bupper \"hi\"\x7d\x7d"] }

/-- The visits of a walk with the error that `filepath.Walk` passes along
taken out. -/
def withoutWalkErr (vs : List Visit) : List Visit :=
  vs.map fun v => { v with err := none }

/-! ## Lemmas on tables -/

theorem length_pos_iff (s : String) : s.length > 0 ↔ s ≠ "" := by
  cases s with
  | mk l =>
    cases l with
    | nil => simp [String.length]
    | cons c cs =>
      simp [String.length]
      intro h
      exact absurd (congrArg String.data h) (by simp)

theorem getEntry_setEntry {α : Type} (k k2 : String) (v : α) (l : List (String × α)) :
    getEntry k2 (setEntry k v l) = if k = k2 then some v else getEntry k2 l := by
  induction l with
  | nil => simp [setEntry, getEntry]
  | cons kv rest ih =>
    obtain ⟨k1, v1⟩ := kv
    by_cases h1 : k1 = k
    · subst h1
      by_cases h2 : k1 = k2 <;> simp [setEntry, getEntry, h2]
    · by_cases h2 : k1 = k2
      · subst h2
        have : ¬ k = k1 := fun h => h1 h.symm
        simp [setEntry, getEntry, h1, this]
      · simp [setEntry, getEntry, h1, h2, ih]

theorem addLayoutFuncs_units {δ : Type} (r : HtmlRender δ) (T : String) (D : δ) :
    (addLayoutFuncs r T D).templates.units = r.templates.units := rfl

theorem addLayoutFuncs_yield {δ : Type} (r : HtmlRender δ) (T : String) (D : δ) :
    getEntry "yield" (addLayoutFuncs r T D).templates.funcs = some (Func.yield T D) := by
  simp [addLayoutFuncs, Template.Funcs, getEntry_setEntry]

theorem addLayoutFuncs_current {δ : Type} (r : HtmlRender δ) (T : String) (D : δ) :
    getEntry "current" (addLayoutFuncs r T D).templates.funcs = some (Func.current T) := by
  simp [addLayoutFuncs, Template.Funcs, getEntry_setEntry]

theorem addLayoutFuncs_block {δ : Type} (r : HtmlRender δ) (T : String) (D : δ) :
    getEntry "block" (addLayoutFuncs r T D).templates.funcs = some (Func.block D) := by
  simp [addLayoutFuncs, Template.Funcs, getEntry_setEntry]

theorem Render_of_layout {δ : Type} (lib : Library δ) (fuel : Nat) (r : HtmlRender δ)
    (wr T : String) (D : δ) (hL : r.opt.Layout ≠ "") :
    Render lib fuel r wr T D
      = (addLayoutFuncs r T D,
          ExecuteTemplate lib fuel (addLayoutFuncs r T D).templates wr r.opt.Layout D) := by
  have h : r.opt.Layout.length > 0 := (length_pos_iff _).2 hL
  simp [Render, h, execute]

/-! ## Lemmas on compilation -/

theorem isSome_getEntry_setEntry {α : Type} (k k2 : String) (v : α) (l : List (String × α)) :
    (getEntry k2 (setEntry k v l)).isSome = (decide (k = k2) || (getEntry k2 l).isSome) := by
  rw [getEntry_setEntry]
  by_cases h : k = k2 <;> simp [h]

theorem isSome_getEntry_foldl {α : Type} (k : String) (E : List (String × α)) :
    ∀ tbl : List (String × α),
      (getEntry k (E.foldl (fun tb kv => setEntry kv.1 kv.2 tb) tbl)).isSome
        = ((getEntry k tbl).isSome || E.any fun kv => kv.1 = k) := by
  induction E with
  | nil => intro tbl; simp
  | cons kv E ih =>
    intro tbl
    simp only [List.foldl_cons, ih, isSome_getEntry_setEntry, List.any_cons]
    cases (getEntry k tbl).isSome <;> cases decide (kv.1 = k) <;> simp

theorem foldl_Funcs_fields {δ : Type} (ms : List (FuncMap δ)) :
    ∀ t : Template δ,
      (ms.foldl (fun tm funcs => tm.Funcs funcs) t).units = t.units
      ∧ (ms.foldl (fun tm funcs => tm.Funcs funcs) t).left = t.left
      ∧ (ms.foldl (fun tm funcs => tm.Funcs funcs) t).right = t.right
      ∧ ∀ k, (getEntry k (ms.foldl (fun tm funcs => tm.Funcs funcs) t).funcs).isSome
          = ((getEntry k t.funcs).isSome || ms.any fun m => m.any fun kv => kv.1 = k) := by
  induction ms with
  | nil => intro t; simp
  | cons m ms ih =>
    intro t
    obtain ⟨h1, h2, h3, h4⟩ := ih (t.Funcs m)
    refine ⟨h1, h2, h3, ?_⟩
    intro k
    simp only [List.foldl_cons, h4, List.any_cons]
    simp only [Template.Funcs, isSome_getEntry_foldl, Bool.or_assoc]

theorem attachFuncs_fields {δ : Type} (options : Options δ) (t : Template δ) :
    (attachFuncs options t).units = t.units
    ∧ (attachFuncs options t).left = t.left
    ∧ (attachFuncs options t).right = t.right
    ∧ ∀ k, (attachFuncs options t).defined k
        = ((getEntry k t.funcs).isSome || helperDefined options k) := by
  obtain ⟨h1, h2, h3, h4⟩ := foldl_Funcs_fields options.Funcs t
  refine ⟨h1, h2, h3, ?_⟩
  intro k
  have h5 := isSome_getEntry_foldl k (helperFuncs : FuncMap δ)
    (options.Funcs.foldl (fun tm funcs => tm.Funcs funcs) t).funcs
  have h6 : (attachFuncs options t).defined k
      = (getEntry k (List.foldl (fun tb kv => setEntry kv.1 kv.2 tb)
          (options.Funcs.foldl (fun tm funcs => tm.Funcs funcs) t).funcs helperFuncs)).isSome :=
    rfl
  rw [h6, h5, h4, helperDefined, Bool.or_assoc]

theorem extensionLoop_of_mem {δ : Type} (lib : Library δ) (sep : Char) (options : Options δ)
    (r ext : String) (read : Except String String) (t : Template δ) :
    ∀ exts : List String, ext ∈ exts →
      extensionLoop lib sep options r ext read exts t = compileFile lib sep options r read t := by
  intro exts
  induction exts with
  | nil => intro h; simp at h
  | cons x xs ih =>
    intro h
    by_cases hx : ext = x
    · simp [extensionLoop, hx]
    · have hxs : ext ∈ xs := by
        rcases List.mem_cons.1 h with h1 | h1
        · exact absurd h1 hx
        · exact h1
      simp [extensionLoop, hx, ih hxs]

theorem extensionLoop_of_not_mem {δ : Type} (lib : Library δ) (sep : Char)
    (options : Options δ) (r ext : String) (read : Except String String) (t : Template δ) :
    ∀ exts : List String, ext ∉ exts →
      extensionLoop lib sep options r ext read exts t = .ok t := by
  intro exts
  induction exts with
  | nil => intro _; rfl
  | cons x xs ih =>
    intro h
    have hx : ¬ ext = x := fun e => h (by simp [e])
    have hxs : ext ∉ xs := fun e => h (by simp [e])
    simp [extensionLoop, hx, ih hxs]

theorem attachFuncs_defined {δ : Type} (options : Options δ) (t : Template δ)
    (hinv : CompileInv options t) (name : String) :
    (attachFuncs options (t.New name)).defined = helperDefined options := by
  funext k
  rw [(attachFuncs_fields options (t.New name)).2.2.2 k]
  have h0 : (t.New name).funcs = t.funcs := rfl
  rw [h0]
  cases h : (getEntry k t.funcs).isSome with
  | false => simp
  | true => simp [hinv.2.2 k h]

theorem compileFile_spec {δ : Type} (lib : Library δ) (sep : Char) (options : Options δ)
    (r buf : String) (t : Template δ) (hinv : CompileInv options t) :
    (∀ e, lib.parse options.Delims.Left options.Delims.Right (helperDefined options) buf
        = .error e → compileFile lib sep options r (.ok buf) t = .error e)
    ∧ (∀ t1, compileFile lib sep options r (.ok buf) t = .ok t1 →
        CompileInv options t1
        ∧ (∀ n, t1.Lookup n = (decide (ToSlash sep r = n) || t.Lookup n))
        ∧ ∃ body, lib.parse options.Delims.Left options.Delims.Right (helperDefined options)
            buf = .ok body
          ∧ getEntry (ToSlash sep r) t1.units = some (some body)) := by
  obtain ⟨hu, hl, hr, _⟩ := attachFuncs_fields options (t.New (ToSlash sep r))
  have hd := attachFuncs_defined options t hinv (ToSlash sep r)
  have hl2 : (attachFuncs options (t.New (ToSlash sep r))).left = options.Delims.Left := by
    rw [hl]; exact hinv.1
  have hr2 : (attachFuncs options (t.New (ToSlash sep r))).right = options.Delims.Right := by
    rw [hr]; exact hinv.2.1
  have hu2 : (attachFuncs options (t.New (ToSlash sep r))).units
      = setEntry (ToSlash sep r) none t.units := hu
  simp only [compileFile, Template.Parse, hl2, hr2, hd]
  constructor
  · intro e he
    rw [he]
  · intro t1 h1
    cases hp : lib.parse options.Delims.Left options.Delims.Right (helperDefined options) buf with
    | error e => rw [hp] at h1; cases h1
    | ok body =>
      rw [hp] at h1
      injection h1 with h1
      subst h1
      refine ⟨⟨rfl, rfl, ?_⟩, ?_, body, rfl, ?_⟩
      · intro k hk
        have : (attachFuncs options (t.New (ToSlash sep r))).defined k = true := hk
        rw [hd] at this
        exact this
      · intro n
        simp only [Template.Lookup, hu2, isSome_getEntry_setEntry, Bool.or_self_left]
      · simp only [getEntry_setEntry, if_true]

theorem walkFn_ok {δ : Type} (lib : Library δ) (sep : Char) (options : Options δ)
    (t : Template δ) (v : Visit) (r : String) (hr : v.rel = .ok r)
    (hinv : CompileInv options t) (t1 : Template δ) (e : Option String)
    (h : walkFn lib sep options t v = .ok (t1, e)) :
    e = none ∧ CompileInv options t1
    ∧ ∀ n, t1.Lookup n
        = ((decide (getExt r ∈ options.Extensions) && decide (ToSlash sep r = n))
            || t.Lookup n) := by
  simp only [walkFn, hr] at h
  by_cases hm : getExt r ∈ options.Extensions
  · rw [extensionLoop_of_mem lib sep options r (getExt r) v.read t _ hm] at h
    cases hread : v.read with
    | error e1 => rw [hread] at h; simp [compileFile] at h
    | ok buf =>
      rw [hread] at h
      cases hc : compileFile lib sep options r (.ok buf) t with
      | error e1 => rw [hc] at h; simp at h
      | ok t2 =>
        rw [hc] at h
        simp only [Except.ok.injEq, Prod.mk.injEq] at h
        obtain ⟨h1, h2⟩ := h
        subst h1
        obtain ⟨hi, hlk, _⟩ := (compileFile_spec lib sep options r buf t hinv).2 t2 hc
        refine ⟨h2.symm, hi, ?_⟩
        intro n
        rw [hlk n]
        simp [hm]
  · rw [extensionLoop_of_not_mem lib sep options r (getExt r) v.read t _ hm] at h
    simp only [Except.ok.injEq, Prod.mk.injEq] at h
    obtain ⟨h1, h2⟩ := h
    subst h1
    refine ⟨h2.symm, hinv, ?_⟩
    intro n
    simp [hm]

theorem walkFn_panics {δ : Type} (lib : Library δ) (sep : Char) (options : Options δ)
    (t : Template δ) (v : Visit) (r buf e : String) (hr : v.rel = .ok r)
    (hinv : CompileInv options t) (hext : getExt r ∈ options.Extensions)
    (hread : v.read = .ok buf)
    (hparse : lib.parse options.Delims.Left options.Delims.Right (helperDefined options) buf
      = .error e) :
    walkFn lib sep options t v = .error e := by
  simp only [walkFn, hr]
  rw [extensionLoop_of_mem lib sep options r (getExt r) v.read t _ hext, hread,
    (compileFile_spec lib sep options r buf t hinv).1 e hparse]

theorem Walk_panics {δ : Type} (lib : Library δ) (sep : Char) (options : Options δ)
    (v : Visit) (r buf e : String) (hr : v.rel = .ok r)
    (hext : getExt r ∈ options.Extensions) (hread : v.read = .ok buf)
    (hparse : lib.parse options.Delims.Left options.Delims.Right (helperDefined options) buf
      = .error e) :
    ∀ (vs : List Visit) (t : Template δ), (∀ x ∈ vs, ∃ p, x.rel = .ok p) → v ∈ vs →
      CompileInv options t → ∃ p, Walk (walkFn lib sep options) vs t = .error p := by
  intro vs
  induction vs with
  | nil => intro t _ hv; simp at hv
  | cons x xs ih =>
    intro t hrel hv hinv
    obtain ⟨p, hp⟩ := hrel x (by simp)
    cases hx : walkFn lib sep options t x with
    | error q => exact ⟨q, by simp [Walk, hx]⟩
    | ok res =>
      obtain ⟨t1, e1⟩ := res
      obtain ⟨he, hi, _⟩ := walkFn_ok lib sep options t x p hp hinv t1 e1 hx
      subst he
      rcases List.mem_cons.1 hv with h1 | h1
      · subst h1
        rw [walkFn_panics lib sep options t v r buf e hr hinv hext hread hparse] at hx
        cases hx
      · obtain ⟨q, hq⟩ := ih t1 (fun y hy => hrel y (by simp [hy])) h1 hi
        exact ⟨q, by simp [Walk, hx, hq]⟩

theorem Walk_lookup {δ : Type} (lib : Library δ) (sep : Char) (options : Options δ) :
    ∀ (vs : List Visit) (t t1 : Template δ) (e : Option String),
      (∀ x ∈ vs, ∃ p, x.rel = .ok p) → CompileInv options t →
      Walk (walkFn lib sep options) vs t = .ok (t1, e) →
      ∀ n, t1.Lookup n = true ↔
        (t.Lookup n = true
          ∨ ∃ v ∈ vs, ∃ r, v.rel = .ok r ∧ getExt r ∈ options.Extensions
              ∧ ToSlash sep r = n) := by
  intro vs
  induction vs with
  | nil =>
    intro t t1 e _ _ h n
    simp only [Walk, Except.ok.injEq, Prod.mk.injEq] at h
    rw [h.1]
    simp
  | cons x xs ih =>
    intro t t1 e hrel hinv h n
    obtain ⟨p, hp⟩ := hrel x (by simp)
    cases hx : walkFn lib sep options t x with
    | error q => simp [Walk, hx] at h
    | ok res =>
      obtain ⟨t2, e2⟩ := res
      obtain ⟨he, hi, hlk⟩ := walkFn_ok lib sep options t x p hp hinv t2 e2 hx
      subst he
      simp only [Walk, hx] at h
      rw [ih t2 t1 e (fun y hy => hrel y (by simp [hy])) hi h n, hlk n]
      constructor
      · rintro (h1 | ⟨v, hv, r, hr, hext, hn⟩)
        · simp only [Bool.or_eq_true, Bool.and_eq_true, decide_eq_true_eq] at h1
          rcases h1 with ⟨h2, h3⟩ | h2
          · exact Or.inr ⟨x, by simp, p, hp, h2, h3⟩
          · exact Or.inl h2
        · exact Or.inr ⟨v, by simp [hv], r, hr, hext, hn⟩
      · rintro (h1 | ⟨v, hv, r, hr, hext, hn⟩)
        · exact Or.inl (by simp [h1])
        · rcases List.mem_cons.1 hv with h2 | h2
          · subst h2
            rw [hp] at hr
            injection hr with hr
            subst hr
            exact Or.inl (by simp [hext, hn])
          · exact Or.inr ⟨v, h2, r, hr, hext, hn⟩

theorem root_spec {δ : Type} (lib : Library δ) (options : Options δ) (t : Template δ)
    (h : ((template.New options.Directory : Template δ).Delims options.Delims.Left
      options.Delims.Right).Parse lib options.Directory "root" = .ok t) :
    CompileInv options t ∧ ∀ n, t.Lookup n = decide (options.Directory = n) := by
  simp only [Template.Parse, Template.Delims, template.New] at h
  split at h
  · cases h
  · injection h with h
    subst h
    refine ⟨⟨rfl, rfl, ?_⟩, ?_⟩
    · intro k hk
      simp [getEntry] at hk
    · intro n
      simp only [Template.Lookup, isSome_getEntry_setEntry]
      simp [getEntry]

theorem compileTemplates_lookup {δ : Type} (lib : Library δ) (host : Host)
    (options : Options δ) (t : Template δ)
    (hrel : ∀ x ∈ host.walk options.Directory, ∃ p, x.rel = .ok p)
    (hc : compileTemplates lib host options = .ok t) (n : String) :
    t.Lookup n = true ↔
      (n = options.Directory
        ∨ ∃ v ∈ host.walk options.Directory, ∃ r, v.rel = .ok r
            ∧ getExt r ∈ options.Extensions ∧ ToSlash host.separator r = n) := by
  simp only [compileTemplates] at hc
  cases h0 : ((template.New options.Directory : Template δ).Delims options.Delims.Left
      options.Delims.Right).Parse lib options.Directory "root" with
  | error p => rw [h0] at hc; cases hc
  | ok t0 =>
    simp only [h0] at hc
    obtain ⟨hinv, hlk⟩ := root_spec lib options t0 h0
    cases hw : Walk (walkFn lib host.separator options) (host.walk options.Directory) t0 with
    | error p => simp only [hw] at hc; cases hc
    | ok res =>
      obtain ⟨t1, e⟩ := res
      simp only [hw, Except.ok.injEq] at hc
      subst hc
      rw [Walk_lookup lib host.separator options _ t0 t1 e hrel hinv hw n, hlk n]
      simp only [decide_eq_true_eq]
      constructor
      · rintro (h1 | h1)
        · exact Or.inl h1.symm
        · exact Or.inr h1
      · rintro (h1 | h1)
        · exact Or.inl h1.symm
        · exact Or.inr h1

theorem compileTemplates_panics {δ : Type} (lib : Library δ) (host : Host)
    (options : Options δ) (v : Visit) (r buf e : String)
    (hrel : ∀ x ∈ host.walk options.Directory, ∃ p, x.rel = .ok p)
    (hv : v ∈ host.walk options.Directory) (hr : v.rel = .ok r)
    (hext : getExt r ∈ options.Extensions) (hread : v.read = .ok buf)
    (hparse : lib.parse options.Delims.Left options.Delims.Right (helperDefined options) buf
      = .error e) :
    ∃ p, compileTemplates lib host options = .error p := by
  simp only [compileTemplates]
  cases h0 : ((template.New options.Directory : Template δ).Delims options.Delims.Left
      options.Delims.Right).Parse lib options.Directory "root" with
  | error p => exact ⟨p, rfl⟩
  | ok t0 =>
    obtain ⟨hinv, _⟩ := root_spec lib options t0 h0
    obtain ⟨p, hp⟩ := Walk_panics lib host.separator options v r buf e hr hext hread hparse
      (host.walk options.Directory) t0 hrel hv hinv
    exact ⟨p, by simp [hp]⟩

/-! ## Lemmas on `getExt` and `ToSlash` -/

theorem splitChars_ne_nil (sep : Char) (l : List Char) : splitChars sep l ≠ [] := by
  cases l with
  | nil => simp [splitChars]
  | cons c cs =>
    by_cases h : c = sep
    · simp [splitChars, h]
    · cases hs : splitChars sep cs <;> simp [splitChars, h, hs]

theorem joinChars_cons_cons (sep : List Char) (c : Char) (p : List Char)
    (ps : List (List Char)) :
    joinChars sep ((c :: p) :: ps) = c :: joinChars sep (p :: ps) := by
  cases ps <;> simp [joinChars]

theorem joinChars_splitChars (sep : Char) (l : List Char) :
    joinChars [sep] (splitChars sep l) = l := by
  induction l with
  | nil => simp [splitChars, joinChars]
  | cons c cs ih =>
    cases hs : splitChars sep cs with
    | nil => exact absurd hs (splitChars_ne_nil sep cs)
    | cons p ps =>
      rw [hs] at ih
      by_cases h : c = sep
      · simp [splitChars, h, hs, joinChars, ih]
      · simp [splitChars, h, hs, joinChars_cons_cons, ih]

theorem drop_splitChars (l : List Char) (h : '.' ∈ l) :
    '.' :: joinChars ['.'] ((splitChars '.' l).drop 1) = l.dropWhile fun c => c != '.' := by
  induction l with
  | nil => simp at h
  | cons c cs ih =>
    by_cases hc : c = '.'
    · subst hc
      simp [splitChars, joinChars_splitChars, List.dropWhile]
    · have hcs : '.' ∈ cs := by
        rcases List.mem_cons.1 h with h1 | h1
        · exact absurd h1.symm hc
        · exact h1
      cases hs : splitChars '.' cs with
      | nil => exact absurd hs (splitChars_ne_nil '.' cs)
      | cons p ps =>
        have ih2 := ih hcs
        rw [hs] at ih2
        simp only [List.drop_succ_cons, List.drop_zero] at ih2
        have hne : (c != '.') = true := by simp [hc]
        simp [splitChars, hc, hs, List.dropWhile, ih2, hne]

theorem getExt_data (s : String) :
    (getExt s).data = s.data.dropWhile fun c => c != '.' := by
  by_cases h : '.' ∈ s.data
  · rw [← drop_splitChars s.data h]
    simp [getExt, h]
  · have h2 : (s.data.dropWhile fun c => c != '.') = [] := by
      rw [List.dropWhile_eq_nil_iff]
      intro x hx
      have : x ≠ '.' := fun e => h (e ▸ hx)
      simp [this]
    rw [h2]
    simp [getExt, h]

theorem ToSlash_data (sep : Char) (path : String) :
    (ToSlash sep path).data = path.data.map fun c => if c = sep then '/' else c := by
  by_cases h : sep = '/'
  · subst h
    have : (fun c : Char => if c = '/' then '/' else c) = id := by
      funext c
      by_cases hc : c = '/' <;> simp [hc]
    simp [ToSlash, this]
  · simp [ToSlash, h]

theorem walkFn_parsed {δ : Type} (lib : Library δ) (sep : Char) (options : Options δ)
    (t : Template δ) (v : Visit) (r : String) (hr : v.rel = .ok r)
    (hinv : CompileInv options t) (hext : getExt r ∈ options.Extensions)
    (t1 : Template δ) (e : Option String) (h : walkFn lib sep options t v = .ok (t1, e)) :
    ∃ buf body, v.read = .ok buf
      ∧ lib.parse options.Delims.Left options.Delims.Right (helperDefined options) buf
          = .ok body := by
  simp only [walkFn, hr] at h
  rw [extensionLoop_of_mem lib sep options r (getExt r) v.read t _ hext] at h
  cases hread : v.read with
  | error e1 => rw [hread] at h; simp [compileFile] at h
  | ok buf =>
    rw [hread] at h
    cases hc : compileFile lib sep options r (.ok buf) t with
    | error e1 => rw [hc] at h; simp at h
    | ok t2 =>
      obtain ⟨_, _, body, hb, _⟩ := (compileFile_spec lib sep options r buf t hinv).2 t2 hc
      exact ⟨buf, body, rfl, hb⟩

theorem Walk_parsed {δ : Type} (lib : Library δ) (sep : Char) (options : Options δ)
    (v : Visit) (r : String) (hr : v.rel = .ok r) (hext : getExt r ∈ options.Extensions) :
    ∀ (vs : List Visit) (t t1 : Template δ) (e : Option String),
      (∀ x ∈ vs, ∃ p, x.rel = .ok p) → v ∈ vs → CompileInv options t →
      Walk (walkFn lib sep options) vs t = .ok (t1, e) →
      ∃ buf body, v.read = .ok buf
        ∧ lib.parse options.Delims.Left options.Delims.Right (helperDefined options) buf
            = .ok body := by
  intro vs
  induction vs with
  | nil => intro t t1 e _ hv; simp at hv
  | cons x xs ih =>
    intro t t1 e hrel hv hinv h
    obtain ⟨p, hp⟩ := hrel x (by simp)
    cases hx : walkFn lib sep options t x with
    | error q => simp [Walk, hx] at h
    | ok res =>
      obtain ⟨t2, e2⟩ := res
      obtain ⟨he, hi, _⟩ := walkFn_ok lib sep options t x p hp hinv t2 e2 hx
      subst he
      simp only [Walk, hx] at h
      rcases List.mem_cons.1 hv with h1 | h1
      · subst h1
        exact walkFn_parsed lib sep options t v r hr hinv hext t2 none hx
      · exact ih t2 t1 e (fun y hy => hrel y (by simp [hy])) h1 hi h

theorem compileTemplates_parsed {δ : Type} (lib : Library δ) (host : Host)
    (options : Options δ) (t : Template δ)
    (hrel : ∀ x ∈ host.walk options.Directory, ∃ p, x.rel = .ok p)
    (hc : compileTemplates lib host options = .ok t) (v : Visit) (r : String)
    (hv : v ∈ host.walk options.Directory) (hr : v.rel = .ok r)
    (hext : getExt r ∈ options.Extensions) :
    ∃ buf body, v.read = .ok buf
      ∧ lib.parse options.Delims.Left options.Delims.Right (helperDefined options) buf
          = .ok body := by
  simp only [compileTemplates] at hc
  cases h0 : ((template.New options.Directory : Template δ).Delims options.Delims.Left
      options.Delims.Right).Parse lib options.Directory "root" with
  | error p => rw [h0] at hc; cases hc
  | ok t0 =>
    simp only [h0] at hc
    obtain ⟨hinv, _⟩ := root_spec lib options t0 h0
    cases hw : Walk (walkFn lib host.separator options) (host.walk options.Directory) t0 with
    | error p => simp only [hw] at hc; cases hc
    | ok res =>
      obtain ⟨t1, e⟩ := res
      exact Walk_parsed lib host.separator options v r hr hext _ t0 t1 e hrel hv hinv hw

theorem Walk_withoutWalkErr {δ : Type} (lib : Library δ) (sep : Char) (options : Options δ) :
    ∀ (vs : List Visit) (t : Template δ),
      Walk (walkFn lib sep options) (withoutWalkErr vs) t
        = Walk (walkFn lib sep options) vs t := by
  intro vs
  induction vs with
  | nil => intro t; rfl
  | cons x xs ih =>
    intro t
    have hx : walkFn lib sep options t { x with err := none } = walkFn lib sep options t x :=
      rfl
    have ih2 : ∀ t2, Walk (walkFn lib sep options) (List.map (fun v => { v with err := none }) xs)
        t2 = Walk (walkFn lib sep options) xs t2 := ih
    simp only [withoutWalkErr, List.map_cons, Walk, hx, ih2]

/-! ## Rendering -/

/-- C1: with a non-empty layout, `Render` executes the layout unit (not the
target) against the data into the sink, after `yield` has been bound to the
closure that executes the target against the data into a fresh buffer and
returns the buffer as trusted markup with the target's error.  With the layout
`<body>{{yield}}</body>`, the target `Hello {{.}}` and the data `World` the
sink receives `<body>Hello World</body>` and there is no error. -/
theorem Render_layout_yield {δ : Type} (lib : Library δ) (fuel : Nat) (r : HtmlRender δ)
    (wr T : String) (D : δ) (hL : r.opt.Layout ≠ "") :
    Render lib fuel r wr T D
        = (addLayoutFuncs r T D,
            ExecuteTemplate lib fuel (addLayoutFuncs r T D).templates wr r.opt.Layout D)
    ∧ getEntry "yield" (addLayoutFuncs r T D).templates.funcs = some (Func.yield T D)
    ∧ (∀ n, callFunc lib n (addLayoutFuncs r T D).templates "yield" (Func.yield T D) []
        = (ExecuteTemplate lib n (addLayoutFuncs r T D).templates "" T D).map
            fun out => (Val.html out.1, out.2))
    ∧ (∃ site, HtmlRenderer goLibrary siteHost [{ Layout := "layout.html" }] = .ok site
        ∧ ∀ n, (Render goLibrary (n + 2) site "" "page.html" "World").2
            = some ("<body>Hello World</body>", none)) :=
  ⟨Render_of_layout lib fuel r wr T D hL, addLayoutFuncs_yield r T D, fun _ => rfl,
    _, rfl, fun _ => rfl⟩

/-- The instance of `Render_layout_yield` on the site with a layout: the layout
name is not empty and the render is the execution of the layout unit. -/
theorem Render_layout_yield_witness :
    (rendererOf siteHost [{ Layout := "layout.html" }]).opt.Layout ≠ ""
    ∧ Render goLibrary 2 (rendererOf siteHost [{ Layout := "layout.html" }]) "" "page.html"
        "World"
      = (addLayoutFuncs (rendererOf siteHost [{ Layout := "layout.html" }]) "page.html" "World",
          ExecuteTemplate goLibrary 2
            (addLayoutFuncs (rendererOf siteHost [{ Layout := "layout.html" }]) "page.html"
              "World").templates
            "" "layout.html" "World") :=
  ⟨by decide,
    (Render_layout_yield goLibrary 2 (rendererOf siteHost [{ Layout := "layout.html" }]) ""
      "page.html" "World" (by decide)).1⟩

/-- C2: with the empty layout, `Render` writes what the execution of the
target unit against the data writes and returns that execution's error, and
the renderer with its shared function table is as before the call: nothing is
bound anew, so the helpers attached at compile time stay in force. -/
theorem Render_no_layout {δ : Type} (lib : Library δ) (fuel : Nat) (r : HtmlRender δ)
    (wr T : String) (D : δ) (hL : r.opt.Layout = "") :
    (Render lib fuel r wr T D).2 = ExecuteTemplate lib fuel r.templates wr T D
    ∧ (Render lib fuel r wr T D).1 = r
    ∧ (Render lib fuel r wr T D).1.templates.funcs = r.templates.funcs := by
  have h : ¬ r.opt.Layout.length > 0 := by
    rw [length_pos_iff]
    simp [hL]
  simp [Render, h, execute]

/-- The instance of `Render_no_layout` on the site without a layout: the page
is rendered bare, and `yield` is still the helper of `helperFuncs`. -/
theorem Render_no_layout_witness :
    (rendererOf siteHost []).opt.Layout = ""
    ∧ (Render goLibrary 1 (rendererOf siteHost []) "" "page.html" "World").2
        = some ("Hello World", none)
    ∧ getEntry "yield"
        (Render goLibrary 1 (rendererOf siteHost []) "" "page.html" "World").1.templates.funcs
        = some Func.yieldNoLayout :=
  ⟨by decide,
    (Render_no_layout goLibrary 1 (rendererOf siteHost []) "" "page.html" "World"
      (by decide)).1.trans rfl,
    rfl⟩

/-- C3: in a layout-driven render with data `D` the helper `block` is the
closure of `addLayoutFuncs`.  Called with a name that no unit of the set has,
it returns empty markup and no error; called with the name of a unit, it
returns what the execution of that unit against `D` wrote into a fresh buffer,
as trusted markup, with that execution's error.  A layout with
`{{block "sidebar"}}` and no unit `sidebar` renders without error, the block
contributing nothing. -/
theorem block_optional {δ : Type} (lib : Library δ) (fuel : Nat) (r : HtmlRender δ)
    (T : String) (D : δ) (n : String) :
    getEntry "block" (addLayoutFuncs r T D).templates.funcs = some (Func.block D)
    ∧ (r.templates.Lookup n = false →
        callFunc lib fuel (addLayoutFuncs r T D).templates "block" (Func.block D) [Arg.str n]
          = some (Val.html "", none))
    ∧ (r.templates.Lookup n = true →
        callFunc lib fuel (addLayoutFuncs r T D).templates "block" (Func.block D) [Arg.str n]
          = (ExecuteTemplate lib fuel (addLayoutFuncs r T D).templates "" n D).map
              fun out => (Val.html out.1, out.2))
    ∧ (∃ site, HtmlRenderer goLibrary sidebarHost [{ Layout := "layout.html" }] = .ok site
        ∧ site.templates.Lookup "sidebar" = false
        ∧ ∀ k, (Render goLibrary (k + 2) site "" "page.html" "World").2
            = some ("<nav></nav><main>Hello World</main>", none)) := by
  refine ⟨addLayoutFuncs_block r T D, ?_, ?_, _, rfl, rfl, fun _ => rfl⟩
  · intro h
    have h1 : (addLayoutFuncs r T D).templates.Lookup n = false := h
    simp [callFunc, callHelper, layoutBlock, h1]
  · intro h
    have h1 : (addLayoutFuncs r T D).templates.Lookup n = true := h
    simp [callFunc, callHelper, layoutBlock, h1]

/-- The instance of `block_optional` on the site whose layout has the optional
block: no unit `sidebar`, so the block is empty; the unit `page.html` exists,
so a block of that name is its output. -/
theorem block_optional_witness :
    (rendererOf sidebarHost [{ Layout := "layout.html" }]).templates.Lookup "sidebar" = false
    ∧ callFunc goLibrary 1
        (addLayoutFuncs (rendererOf sidebarHost [{ Layout := "layout.html" }]) "page.html"
          "World").templates "block" (Func.block "World") [Arg.str "sidebar"]
        = some (Val.html "", none)
    ∧ (rendererOf sidebarHost [{ Layout := "layout.html" }]).templates.Lookup "page.html" = true
    ∧ callFunc goLibrary 1
        (addLayoutFuncs (rendererOf sidebarHost [{ Layout := "layout.html" }]) "page.html"
          "World").templates "block" (Func.block "World") [Arg.str "page.html"]
        = some (Val.html "Hello World", none) :=
  ⟨by decide,
    (block_optional goLibrary 1 (rendererOf sidebarHost [{ Layout := "layout.html" }])
      "page.html" "World" "sidebar").2.1 (by decide),
    by decide,
    ((block_optional goLibrary 1 (rendererOf sidebarHost [{ Layout := "layout.html" }])
      "page.html" "World" "page.html").2.2.1 (by decide)).trans rfl⟩

/-- C4: in a layout-driven render of target `T` the helper `current` that the
render installs returns `T`, the name passed to `Render`, and no error.
Rendering the target `view.html` through a layout that prints `current` writes
`view.html`. -/
theorem current_is_target {δ : Type} (lib : Library δ) (fuel : Nat) (r : HtmlRender δ)
    (wr T : String) (D : δ) (hL : r.opt.Layout ≠ "") :
    getEntry "current" (Render lib fuel r wr T D).1.templates.funcs = some (Func.current T)
    ∧ (∀ n, callFunc lib n (Render lib fuel r wr T D).1.templates "current" (Func.current T) []
        = some (Val.str T, none))
    ∧ (∃ site, HtmlRenderer goLibrary viewHost [{ Layout := "layout.html" }] = .ok site
        ∧ ∀ k, (Render goLibrary (k + 1) site "" "view.html" "data").2
            = some ("[view.html]", none)) := by
  rw [Render_of_layout lib fuel r wr T D hL]
  exact ⟨addLayoutFuncs_current r T D, fun _ => rfl, _, rfl, fun _ => rfl⟩

/-- The instance of `current_is_target` on the site whose layout prints the
current page. -/
theorem current_is_target_witness :
    (rendererOf viewHost [{ Layout := "layout.html" }]).opt.Layout ≠ ""
    ∧ getEntry "current"
        (Render goLibrary 1 (rendererOf viewHost [{ Layout := "layout.html" }]) "" "view.html"
          "data").1.templates.funcs
        = some (Func.current "view.html") :=
  ⟨by decide,
    (current_is_target goLibrary 1 (rendererOf viewHost [{ Layout := "layout.html" }]) ""
      "view.html" "data" (by decide)).1⟩

/-! ## Compilation -/

/-- C5: when the walk of the template directory visits an eligible file (the
extension that `getExt` computes is one of `Extensions`) whose content the
parser rejects, `compileTemplates` panics and returns no template set,
whatever the other files are and in whatever order the files are visited. -/
theorem compile_fails_on_bad_file {δ : Type} (lib : Library δ) (host : Host)
    (options : Options δ) (v : Visit) (r buf e : String)
    (hrel : ∀ x ∈ host.walk options.Directory, ∃ p, x.rel = .ok p)
    (hv : v ∈ host.walk options.Directory) (hr : v.rel = .ok r)
    (hext : getExt r ∈ options.Extensions) (hread : v.read = .ok buf)
    (hparse : lib.parse options.Delims.Left options.Delims.Right (helperDefined options) buf
      = .error e) :
    ∀ vs, List.Perm vs (host.walk options.Directory) →
      ∃ p, compileTemplates lib { separator := host.separator, walk := fun _ => vs } options
        = .error p := by
  intro vs hperm
  exact compileTemplates_panics lib { separator := host.separator, walk := fun _ => vs }
    options v r buf e (fun x hx => hrel x (hperm.mem_iff.1 hx)) (hperm.mem_iff.2 hv) hr hext
    hread hparse

/-- The instance of `compile_fails_on_bad_file` on the host with one sound and
one unclosed template: the compilation panics, also when the sound file is
visited first. -/
theorem compile_fails_on_bad_file_witness :
    (∀ x ∈ brokenHost.walk "templates", ∃ p, x.rel = .ok p)
    ∧ visitFile "templates" "bad.html" "oops \x7b\x7byield" ∈ brokenHost.walk "templates"
    ∧ getExt "bad.html" ∈ [".html"]
    ∧ goParse "" "" (helperDefined (prepareOptions ([] : List (Options String))))
        "oops \x7b\x7byield" = .error "unclosed action"
    ∧ ∃ p, compileTemplates goLibrary
        { separator := '/',
          walk := fun _ =>
            [visitFile "templates" "good.html" "fine", visitDir "templates" ".",
             visitFile "templates" "bad.html" "oops \x7b\x7byield"] }
        (prepareOptions ([] : List (Options String))) = .error p :=
  have hrel : ∀ x ∈ brokenHost.walk "templates", ∃ p, x.rel = .ok p := by
    intro x hx
    simp only [brokenHost, List.mem_cons, List.mem_singleton, List.not_mem_nil, or_false] at hx
    rcases hx with h | h | h <;> subst h <;> exact ⟨_, rfl⟩
  have hv : visitFile "templates" "bad.html" "oops \x7b\x7byield"
      ∈ brokenHost.walk "templates" := by
    simp [brokenHost]
  ⟨hrel, hv, by decide, rfl,
    compile_fails_on_bad_file goLibrary brokenHost (prepareOptions []) _ "bad.html"
      "oops \x7b\x7byield" "unclosed action" hrel hv rfl (by decide) rfl rfl _
      (List.Perm.trans (List.Perm.swap _ _ _) (List.Perm.cons _ (List.Perm.swap _ _ _)))⟩

/-- C6: when `compileTemplates` succeeds, each eligible file that the walk
visits has a unit in the set whose name is the file's path relative to the
directory, extension included, in which each host path separator has become a
slash and nothing else has changed.  The file `a\b\c.html` of a host with the
backslash as separator is registered as `a/b/c.html`. -/
theorem unit_name_is_relative_path {δ : Type} (lib : Library δ) (host : Host)
    (options : Options δ) (t : Template δ) (v : Visit) (r : String)
    (hrel : ∀ x ∈ host.walk options.Directory, ∃ p, x.rel = .ok p)
    (hc : compileTemplates lib host options = .ok t)
    (hv : v ∈ host.walk options.Directory) (hr : v.rel = .ok r)
    (hext : getExt r ∈ options.Extensions) :
    t.Lookup (ToSlash host.separator r) = true
    ∧ (ToSlash host.separator r).data
        = r.data.map (fun c => if c = host.separator then '/' else c)
    ∧ ToSlash (Char.ofNat 92) "a\\b\\c.html" = "a/b/c.html"
    ∧ ToSlash '/' "a/b/c.html" = "a/b/c.html" :=
  ⟨(compileTemplates_lookup lib host options t hrel hc _).2 (Or.inr ⟨v, hv, r, hr, hext, rfl⟩),
    ToSlash_data host.separator r, by decide, by decide⟩

/-- The instance of `unit_name_is_relative_path` on the host with the
backslash as separator: the set compiled there has the unit `a/b/c.html`. -/
theorem unit_name_is_relative_path_witness :
    (∃ t, compileTemplates goLibrary backslashHost (prepareOptions ([] : List (Options String)))
        = .ok t
      ∧ t.Lookup "a/b/c.html" = true ∧ t.Lookup "a\\b\\c.html" = false)
    ∧ getExt "a\\b\\c.html" ∈ [".html"] := by
  have hrel : ∀ x ∈ backslashHost.walk "templates", ∃ p, x.rel = .ok p := by
    intro x hx
    simp only [backslashHost, List.mem_cons, List.mem_singleton, List.not_mem_nil, or_false]
      at hx
    rcases hx with h | h | h | h <;> subst h <;> exact ⟨_, rfl⟩
  have h := unit_name_is_relative_path goLibrary backslashHost (prepareOptions []) _
    { path := "templates\\a\\b\\c.html", rel := .ok "a\\b\\c.html", read := .ok "deep" }
    "a\\b\\c.html" hrel rfl (by simp [backslashHost, prepareOptions]) rfl (by decide)
  exact ⟨⟨_, rfl, h.1, rfl⟩, by decide⟩

/-- C7, as stated, fails: with `Extensions = [".html"]` the files
`page.min.html` and `v1.0/index.html` end in `.html`, yet `compileTemplates`
succeeds without making a unit of either; only `page.html` is compiled. -/
theorem suffix_html_not_compiled :
    List.isSuffixOf ".html".data "page.min.html".data = true
    ∧ List.isSuffixOf ".html".data "v1.0/index.html".data = true
    ∧ getExt "page.min.html" = ".min.html"
    ∧ getExt "v1.0/index.html" = ".0/index.html"
    ∧ ∃ t, compileTemplates goLibrary dottedHost
          ({ Directory := "templates", Extensions := [".html"] } : Options String) = .ok t
        ∧ t.Lookup "page.html" = true
        ∧ t.Lookup "page.min.html" = false
        ∧ t.Lookup "v1.0/index.html" = false :=
  ⟨by decide, by decide, by decide, by decide, _, rfl, rfl, rfl, rfl⟩

/-- C7, amended: the extension that `getExt` computes for a relative path is
the part of the path from its first dot on (empty when there is no dot), and a
file is eligible exactly when that extension is one of `Extensions`: when
`compileTemplates` succeeds, the units of the set are the root and one unit per
visited file whose `getExt` is in `Extensions`, and the content of each such
file was read and parsed. -/
theorem compiled_iff_getExt {δ : Type} (lib : Library δ) (host : Host)
    (options : Options δ) (t : Template δ)
    (hrel : ∀ x ∈ host.walk options.Directory, ∃ p, x.rel = .ok p)
    (hc : compileTemplates lib host options = .ok t) :
    (∀ s, (getExt s).data = s.data.dropWhile fun c => c != '.')
    ∧ (∀ n, t.Lookup n = true ↔
        (n = options.Directory
          ∨ ∃ v ∈ host.walk options.Directory, ∃ r, v.rel = .ok r
              ∧ getExt r ∈ options.Extensions ∧ ToSlash host.separator r = n))
    ∧ (∀ v ∈ host.walk options.Directory, ∀ r, v.rel = .ok r →
        getExt r ∈ options.Extensions →
        ∃ buf body, v.read = .ok buf
          ∧ lib.parse options.Delims.Left options.Delims.Right (helperDefined options) buf
              = .ok body) :=
  ⟨getExt_data, compileTemplates_lookup lib host options t hrel hc,
    fun v hv r hr hext => compileTemplates_parsed lib host options t hrel hc v r hv hr hext⟩

/-- The instance of `compiled_iff_getExt` on the host with dotted names: the
unit `page.min.html` is in the compiled set exactly when some visited file of
that name has its `getExt` among the extensions. -/
theorem compiled_iff_getExt_witness :
    ∃ t, compileTemplates goLibrary dottedHost
        ({ Directory := "templates", Extensions := [".html"] } : Options String) = .ok t
      ∧ (t.Lookup "page.min.html" = true ↔
          ("page.min.html" = "templates"
            ∨ ∃ v ∈ dottedHost.walk "templates", ∃ r, v.rel = .ok r
                ∧ getExt r ∈ [".html"] ∧ ToSlash '/' r = "page.min.html")) := by
  have hrel : ∀ x ∈ dottedHost.walk "templates", ∃ p, x.rel = .ok p := by
    intro x hx
    simp only [dottedHost, List.mem_cons, List.mem_singleton, List.not_mem_nil, or_false] at hx
    rcases hx with h | h | h | h | h <;> subst h <;> exact ⟨_, rfl⟩
  exact ⟨_, rfl,
    (compiled_iff_getExt goLibrary dottedHost
      ({ Directory := "templates", Extensions := [".html"] } : Options String) _ hrel rfl).2.1
      "page.min.html"⟩

/-- C8 fails on the code: the function given to `filepath.Walk` never looks at
the error it is passed, and what `Walk` returns is dropped, so the result of
`compileTemplates` does not depend on those errors.  On a host where the
directory does not exist the compilation succeeds with a set that holds the
placeholder root and nothing else. -/
theorem missing_directory_compiles :
    (∀ (lib : Library String) (host : Host) (options : Options String),
        compileTemplates lib
            { separator := host.separator, walk := fun d => withoutWalkErr (host.walk d) }
            options
          = compileTemplates lib host options)
    ∧ (missingHost.walk "templates").map (fun v => v.err)
        = [some "lstat templates: no such file or directory"]
    ∧ ∃ t, compileTemplates goLibrary missingHost (prepareOptions ([] : List (Options String)))
          = .ok t
        ∧ t.units = [("templates", some [Node.text "root"])] := by
  refine ⟨?_, by decide, _, rfl, rfl⟩
  intro lib host options
  simp only [compileTemplates, Walk_withoutWalkErr]

/-- C9 fails on the code: `HtmlRenderer` overwrites `opt.Funcs` with its own
map, so the result does not depend on the maps the caller passed.  A caller
who passes the helper `upper` gets a renderer without it when no template uses
it, and a panic of the parser when a template calls it, while
`compileTemplates` on the caller's options does attach it. -/
theorem HtmlRenderer_drops_caller_funcs :
    (∀ (lib : Library String) (host : Host) (o : Options String) (rest : List (Options String)),
        HtmlRenderer lib host (o :: rest) = HtmlRenderer lib host ({ o with Funcs := [] } :: rest))
    ∧ (∃ site, HtmlRenderer goLibrary siteHost [{ Funcs := [[("upper", upper)]] }] = .ok site
        ∧ site.templates.defined "upper" = false
        ∧ site.templates.defined "html" = true)
    ∧ HtmlRenderer goLibrary upperHost [{ Funcs := [[("upper", upper)]] }]
        = .error "function upper not defined"
    ∧ ∃ t, compileTemplates goLibrary upperHost
          (prepareOptions [{ Funcs := [[("upper", upper)]] }]) = .ok t
        ∧ t.defined "upper" = true
        ∧ t.defined "yield" = true := by
  refine ⟨?_, ⟨_, rfl, rfl, rfl⟩, ?_, _, rfl, rfl, rfl⟩
  · intro lib host o rest
    simp only [HtmlRenderer, prepareOptions]
    by_cases h1 : o.Directory.length = 0 <;> by_cases h2 : o.Extensions.length = 0 <;>
      simp [h1, h2]
  · rfl

/-- C10, as stated, fails: without options, and with options whose
`Extensions` is empty, `prepareOptions` sets `Extensions` to `[".html"]`, which
is not the `[".tmpl"]` that the claim takes from the comment of the field. -/
theorem prepareOptions_default_not_tmpl :
    (prepareOptions ([] : List (Options String))).Extensions = [".html"]
    ∧ (prepareOptions ([] : List (Options String))).Extensions ≠ [".tmpl"]
    ∧ (prepareOptions [({ Layout := "layout.html" } : Options String)]).Extensions = [".html"]
    ∧ (prepareOptions [({ Layout := "layout.html" } : Options String)]).Extensions
        ≠ [".tmpl"] := by
  refine ⟨rfl, by decide, rfl, by decide⟩

/-- C10, amended: when the caller supplies no options, or options whose
`Extensions` is empty, `prepareOptions` sets `Extensions` to `[".html"]`; a
non-empty `Extensions` of the caller's first options is returned unchanged. -/
theorem prepareOptions_extensions {δ : Type} (o : Options δ) (rest : List (Options δ)) :
    (prepareOptions ([] : List (Options δ))).Extensions = [".html"]
    ∧ (o.Extensions = [] → (prepareOptions (o :: rest)).Extensions = [".html"])
    ∧ (o.Extensions ≠ [] → (prepareOptions (o :: rest)).Extensions = o.Extensions) := by
  refine ⟨rfl, ?_, ?_⟩
  · intro h
    simp only [prepareOptions]
    by_cases h1 : o.Directory.length = 0 <;> simp [h1, h]
  · intro h
    have h2 : ¬ o.Extensions.length = 0 := fun e => h (List.length_eq_zero.1 e)
    simp only [prepareOptions]
    by_cases h1 : o.Directory.length = 0 <;> simp [h1, h2]

/-- The instance of `prepareOptions_extensions` on options with a layout and
no extensions, and on options with two extensions. -/
theorem prepareOptions_extensions_witness :
    ({ Layout := "layout.html" } : Options String).Extensions = []
    ∧ (prepareOptions [({ Layout := "layout.html" } : Options String)]).Extensions = [".html"]
    ∧ ({ Extensions := [".tmpl", ".tpl"] } : Options String).Extensions ≠ []
    ∧ (prepareOptions [({ Extensions := [".tmpl", ".tpl"] } : Options String)]).Extensions
        = [".tmpl", ".tpl"] :=
  ⟨rfl,
    (prepareOptions_extensions ({ Layout := "layout.html" } : Options String) []).2.1 rfl,
    by decide,
    (prepareOptions_extensions ({ Extensions := [".tmpl", ".tpl"] } : Options String) []).2.2
      (by decide)⟩

end Echo
